import Mathlib

/-!
Verification of the SASPData bronze ingestion engine.

This file gives a shallow embedding, in Lean 4, of the ingestion core of the
SASPData repository and proves the behavioural properties its specification
states about it.  The embedded code comes from:

  * src/ingest.py        — canonicalize_json, http_get_with_backoff,
                           ingest_endpoint, update_url_status,
                           is_permanent_404, run_ingest
  * scripts/ingest_competitions.py / scripts/ingest_teams_range.py
                         — range / explicit-id orchestration loops
  * scripts/bronze/threaded_team_ingest.py   — ThreadedTeamIngester.check_rate_limit
  * scripts/bronze/concurrent_team_ingest.py — ConcurrentTeamIngester's
                           semaphore-based rate limiter

Conventions: machine integers are modelled as Nat/Int (no overflow is relevant
here), timestamps as Int (seconds), SQL rows as structures, SQL tables as
lists of rows, and each Python function as a pure Lean function of its inputs
plus the relevant database state.
-/

/-! ## JSON values and canonical serialization (src/ingest.py: canonicalize_json)

Python payloads are `json` documents; `canonicalize_json(obj)` is
`json.dumps(obj, sort_keys=True, separators=(",", ":"), ensure_ascii=False)`.
We model JSON documents with `Jval` (numbers restricted to integers, which is
all the claims need) and `json.dumps` with `dumps`: object entries are sorted
by key (Unicode code-point order, as in Python's `sort_keys=True`), the item
separator is `","`, the key separator is `":"`, and no incidental whitespace
is emitted.
-/

inductive Jval where
  | null : Jval
  | bool (b : Bool) : Jval
  | num (n : Int) : Jval
  | str (s : String) : Jval
  | arr (xs : List Jval) : Jval
  | obj (kvs : List (String × Jval)) : Jval

/-- First binding of key `k` in an association list (Python dict lookup;
dict keys are unique, and we carry that as a `Nodup` hypothesis where needed). -/
def lookupKey (k : String) : List (String × Jval) → Option Jval
  | [] => none
  | (k', v) :: t => if k' = k then some v else lookupKey k t

/-- Key order used by `json.dumps(..., sort_keys=True)`: compare the keys
of two entries by Unicode code-point order. -/
def keyLE (p q : String × Jval) : Prop := p.1 ≤ q.1

instance : DecidableRel keyLE := fun p q => by
  unfold keyLE; infer_instance

instance : IsTotal (String × Jval) keyLE :=
  ⟨fun p q => le_total p.1 q.1⟩

instance : IsTrans (String × Jval) keyLE :=
  ⟨fun _ _ _ h1 h2 => le_trans h1 h2⟩

/-- `sorted(d.items())` by key, as performed by `json.dumps(..., sort_keys=True)`. -/
def sortEntries (kvs : List (String × Jval)) : List (String × Jval) :=
  List.insertionSort keyLE kvs

def hexDigit (n : Nat) : Char :=
  if n < 10 then Char.ofNat (48 + n) else Char.ofNat (87 + n)

/-- Escaping of a character inside a JSON string literal, as done by
`json.dumps` with `ensure_ascii=False`. -/
def escapeChar (c : Char) : String :=
  if c = '"' then "\\\""
  else if c = '\\' then "\\\\"
  else if c = '\n' then "\\n"
  else if c = '\t' then "\\t"
  else if c = '\r' then "\\r"
  else if c = '\x08' then "\\b"
  else if c = '\x0c' then "\\f"
  else if c.toNat < 32 then "\\u00" ++ String.mk [hexDigit (c.toNat / 16), hexDigit (c.toNat % 16)]
  else String.mk [c]

def quoteStr (s : String) : String :=
  "\"" ++ String.join (s.data.map escapeChar) ++ "\""

/-- Join with the `","` item separator of `separators=(",", ":")`. -/
def joinComma : List String → String
  | [] => ""
  | [s] => s
  | s :: rest => s ++ "," ++ joinComma rest

/-- `json.dumps(obj, sort_keys=True, separators=(",", ":"), ensure_ascii=False)`. -/
def dumps : Jval → String
  | .null => "null"
  | .bool true => "true"
  | .bool false => "false"
  | .num n => toString n
  | .str s => quoteStr s
  | .arr xs => "[" ++ joinComma (xs.attach.map (fun x => dumps x.1)) ++ "]"
  | .obj kvs => "\x7b" ++ joinComma ((sortEntries kvs).attach.map
      (fun kv => quoteStr kv.1.1 ++ ":" ++ dumps kv.1.2)) ++ "\x7d"
termination_by x => sizeOf x
decreasing_by
  · have h := List.sizeOf_lt_of_mem x.2
    simp only [Jval.arr.sizeOf_spec]
    omega
  · rcases kv with ⟨⟨k, v⟩, hk⟩
    have hmem : (k, v) ∈ kvs := by simpa [sortEntries] using hk
    have h := List.sizeOf_lt_of_mem hmem
    simp only [Jval.obj.sizeOf_spec, Prod.mk.sizeOf_spec] at h ⊢
    omega

/-- src/ingest.py line 112: `canonicalize_json`. -/
def canonicalize_json (obj : Jval) : String := dumps obj

/-! ### Structural equality of payload documents

`ValEq a b` says the two parsed documents are the same structured value: equal
scalars, arrays equal pointwise, and objects that bind the same set of keys to
structurally equal values (JSON objects parse to Python dicts, whose keys are
unique and unordered).  Two source texts that differ only in object key order
or insignificant whitespace parse to `ValEq`-related documents. -/

inductive ValEq : Jval → Jval → Prop where
  | null : ValEq .null .null
  | bool (b : Bool) : ValEq (.bool b) (.bool b)
  | num (n : Int) : ValEq (.num n) (.num n)
  | str (s : String) : ValEq (.str s) (.str s)
  | arr (xs ys : List Jval) (hlen : xs.length = ys.length)
      (h : ∀ i (h1 : i < xs.length) (h2 : i < ys.length),
        ValEq (xs.get ⟨i, h1⟩) (ys.get ⟨i, h2⟩)) :
      ValEq (.arr xs) (.arr ys)
  | obj (kvs kvs' : List (String × Jval))
      (nd : (kvs.map Prod.fst).Nodup) (nd' : (kvs'.map Prod.fst).Nodup)
      (hkeys : ∀ k, k ∈ kvs.map Prod.fst ↔ k ∈ kvs'.map Prod.fst)
      (hvals : ∀ k v v', lookupKey k kvs = some v → lookupKey k kvs' = some v' →
        ValEq v v') :
      ValEq (.obj kvs) (.obj kvs')

/-! ## HTTP fetch with retries (src/ingest.py: http_get_with_backoff)

The network is modelled as a stream of per-attempt outcomes (attempt numbers
start at 1, as in the source's `attempt += 1` loop): either a transport
exception (`requests` Timeout / ConnectionError, carrying an arbitrary tag) or
a response with a status code.  Sleeping between retries does not affect which
response is returned, so backoff computation and `Retry-After` handling are
not part of this model; the attempt index records how many attempts were
consumed. -/

inductive FetchAttempt where
  | exc (e : Nat) : FetchAttempt
  | resp (status : Int) : FetchAttempt

/-- `should_retry` of the source: a transport exception always retries;
a response retries on 429 and 5xx. -/
def should_retry : FetchAttempt → Bool
  | .exc _ => true
  | .resp s => s == 429 || (decide (500 ≤ s) && decide (s < 600))

inductive FetchResult where
  | returned (status : Int) : FetchResult
  | raised (e : Nat) : FetchResult
deriving DecidableEq, Repr

/-- "return resp if present, else raise last_exc", applied to the current
attempt's outcome (when the current attempt raised, `last_exc` is that
exception). -/
def finishAttempt : FetchAttempt → FetchResult
  | .resp s => .returned s
  | .exc e => .raised e

/-- The retry loop body of `http_get_with_backoff`, from attempt `attempt`.
Returns the result together with the index of the last attempt made. -/
def httpGetGo (outcomes : Nat → FetchAttempt) (maxRetries : Nat) (attempt : Nat) :
    FetchResult × Nat :=
  let o := outcomes attempt
  if should_retry o then
    if maxRetries ≤ attempt then (finishAttempt o, attempt)
    else httpGetGo outcomes maxRetries (attempt + 1)
  else (finishAttempt o, attempt)
termination_by maxRetries - attempt
decreasing_by omega

/-- src/ingest.py line 30: `http_get_with_backoff(url, ...)`. -/
def http_get_with_backoff (outcomes : Nat → FetchAttempt) (maxRetries : Nat) :
    FetchResult × Nat :=
  httpGetGo outcomes maxRetries 1

/-! ## URL health tracking (src/ingest.py: update_url_status, is_permanent_404)

One row of the `url_status` table.  `update_url_status(conn, resource, url,
status_code, success)` is modelled as a pure function of the existing row (if
any), the current time, the identifier parsed from the URL
(`extract_match_id_from_url(url)`, passed here as `matchId`), and the value of
`SELECT MAX(match_number) FROM {resource}` (passed here as `maxMatch`; `none`
when the resource table holds no non-NULL match_number).  `permThreshold` and
`futureMargin` are the `PERM_404_CONSECUTIVE` (default 5) and `FUTURE_MARGIN`
(default 10) settings. -/

structure UrlRecord where
  matchId : Option Int
  lastChecked : Int
  lastStatus : Option Int
  consecutive404 : Nat
  first404At : Option Int
  lastSuccessAt : Option Int
  permanent404 : Bool
deriving DecidableEq, Repr

/-- src/ingest.py line 269: `update_url_status`. -/
def update_url_status (permThreshold : Nat) (futureMargin : Int) (matchId : Option Int)
    (maxMatch : Option Int) (rec0 : Option UrlRecord) (now : Int)
    (status : Option Int) (success : Bool) : UrlRecord :=
  -- the upsert: create the row with table defaults, or touch last_checked/last_status
  let r0 : UrlRecord :=
    match rec0 with
    | none =>
      { matchId := matchId
        lastChecked := now
        lastStatus := status
        consecutive404 := 0
        first404At := none
        lastSuccessAt := none
        permanent404 := false }
    | some r => { r with lastChecked := now, lastStatus := status }
  if success then
    { r0 with
      lastSuccessAt := some now
      consecutive404 := 0
      first404At := none
      permanent404 := false
      lastStatus := some 200 }
  else if status = some 404 then
    let c := r0.consecutive404 + 1
    let r1 := if r0.first404At = none then { r0 with first404At := some now } else r0
    let permanent : Bool :=
      match maxMatch, matchId with
      | some mm, some mid => decide (permThreshold ≤ c) && decide (mid ≤ mm - futureMargin)
      | _, _ => false
    { r1 with consecutive404 := c, permanent404 := permanent, lastStatus := some 404 }
  else
    r0

/-- src/ingest.py line 330: `is_permanent_404` — the row's flag, or False when
no row exists for the URL. -/
def is_permanent_404 (rec0 : Option UrlRecord) : Bool :=
  match rec0 with
  | none => false
  | some r => r.permanent404

/-! ## Content store and ingest_endpoint (src/ingest.py lines 187-256)

A raw table (`raw_teams` / `raw_scoreboard` / ...) is a list of rows; the
interesting columns are `match_number`, `payload`, `source` and the UNIQUE
`source_hash`.  `INSERT ... ON CONFLICT (source_hash) DO NOTHING RETURNING id`
returns a row exactly when the hash was absent.  The SHA-256 hex digest is an
arbitrary fixed function `hashFn` of the canonical serialization (its
definition plays no role in any claim). -/

structure StoreRow where
  matchNumber : Option Jval
  payload : Jval
  source : String
  sourceHash : String

/-- `INSERT ... ON CONFLICT (source_hash) DO NOTHING RETURNING id`:
the new table contents and whether a row was inserted. -/
def insertOnConflictHash (st : List StoreRow) (row : StoreRow) : List StoreRow × Bool :=
  if st.any (fun r => r.sourceHash == row.sourceHash) then (st, false)
  else (st ++ [row], true)

/-- Python truthiness of a JSON value, for the `or`-chains in the source. -/
def pyTruthy : Jval → Bool
  | .null => false
  | .bool b => b
  | .num n => decide (n ≠ 0)
  | .str s => !(s == "")
  | .arr xs => !xs.isEmpty
  | .obj kvs => !kvs.isEmpty

/-- Python `a or b` over optional JSON values (`None` and falsy values fall
through to `b`). -/
def pyOr (a b : Option Jval) : Option Jval :=
  match a with
  | some v => if pyTruthy v then some v else b
  | none => b

def isEmptyStrOpt : Option Jval → Bool
  | some (.str s) => s == ""
  | _ => false

/-- src/ingest.py lines 214-223: extract `match_number` from the payload body
(`match_number` / `MatchNumber` / `matchNumber`, chained with `or`), falling
back to the trailing numeric URL path segment (`extract_match_id_from_url`,
passed here as the already-parsed `urlId`) when the result is `None` or `""`. -/
def matchNumberOf (payload : Jval) (urlId : Option Int) : Option Jval :=
  let m : Option Jval :=
    match payload with
    | .obj kvs => pyOr (lookupKey "match_number" kvs)
        (pyOr (lookupKey "MatchNumber" kvs) (lookupKey "matchNumber" kvs))
    | _ => none
  if m.isNone || isEmptyStrOpt m then urlId.map Jval.num else m

/-- Outcome of the HTTP fetch performed by `ingest_endpoint`:
`netFail` when `http_get_with_backoff` raised (transport failure after
retries); otherwise the final response's status and its parsed JSON body
(`none` when `resp.json()` raised). -/
inductive FetchOutcome where
  | netFail (e : Nat) : FetchOutcome
  | httpResp (status : Int) (body : Option Jval) : FetchOutcome

/-- src/ingest.py line 187: `ingest_endpoint(conn, table, url)`.

Returns the source function's boolean, the new table contents, and the list of
`update_url_status` calls made (status argument, success flag), in order.
`dbFails` models the `cur.execute` insert raising (PersistenceFailure). -/
def ingest_endpoint (hashFn : String → String) (st : List StoreRow) (url : String)
    (urlId : Option Int) (outcome : FetchOutcome) (dbFails : Bool) :
    Bool × List StoreRow × List (Option Int × Bool) :=
  match outcome with
  | .netFail _ => (false, st, [])
  | .httpResp status body =>
    if status ≠ 200 then (false, st, [(some status, false)])
    else
      match body with
      | none => (false, st, [])
      | some payload =>
        let canonical := canonicalize_json payload
        let sourceHash := hashFn canonical
        let mn := matchNumberOf payload urlId
        if dbFails then (false, st, [(none, false)])
        else
          let res := insertOnConflictHash st ⟨mn, payload, url, sourceHash⟩
          (res.2, res.1, [(some 200, true)])

/-- src/ingest.py line 340: the `run_ingest` loop over all configured
endpoints: every target is processed, `tried` counts them and `inserted`
counts the `True` returns.  A target is (url, parsed url id, fetch outcome,
dbFails). -/
def run_ingest (hashFn : String → String) (st0 : List StoreRow)
    (targets : List (String × Option Int × FetchOutcome × Bool)) :
    List StoreRow × Nat × Nat :=
  targets.foldl
    (fun acc t =>
      let r := ingest_endpoint hashFn acc.1 t.1 t.2.1 t.2.2.1 t.2.2.2
      (r.2.1, acc.2.1 + 1, if r.1 then acc.2.2 + 1 else acc.2.2))
    (st0, 0, 0)

/-- Apply the `update_url_status` calls reported by `ingest_endpoint` to a
url_status row. -/
def applyEvents (permThreshold : Nat) (futureMargin : Int) (matchId : Option Int)
    (maxMatch : Option Int) (rec0 : Option UrlRecord) (now : Int)
    (evs : List (Option Int × Bool)) : Option UrlRecord :=
  evs.foldl
    (fun rc ev => some (update_url_status permThreshold futureMargin matchId maxMatch
      rc now ev.1 ev.2)) rec0

/-! ## Combined health/store transition system (for permanence monotonicity)

The permanence decision of `update_url_status` reads
`SELECT MAX(match_number) FROM {resource}` from the content store.  To reason
about the states a url_status row can actually be in, we track that maximum
alongside the row: `archive` events are successful inserts into the resource
table by any worker (the store is append-only, so the maximum only grows),
`attempt` events are `update_url_status` calls for this URL. -/

structure SysState where
  storeMax : Option Int
  urlRec : Option UrlRecord
deriving DecidableEq, Repr

inductive SysEv where
  | archive (matchNumber : Option Int) : SysEv
  | attempt (now : Int) (status : Option Int) (success : Bool) : SysEv

def sysStep (permThreshold : Nat) (futureMargin : Int) (matchId : Option Int)
    (s : SysState) : SysEv → SysState
  | .archive mn =>
    match s.storeMax, mn with
    | _, none => s
    | none, some v => { s with storeMax := some v }
    | some m, some v => { s with storeMax := some (max m v) }
  | .attempt now status success =>
    { s with urlRec := some (update_url_status permThreshold futureMargin matchId
        s.storeMax s.urlRec now status success) }

/-- States reachable from an empty resource table and no url_status row. -/
inductive SysReachable (permThreshold : Nat) (futureMargin : Int) (matchId : Option Int) :
    SysState → Prop where
  | init : SysReachable permThreshold futureMargin matchId ⟨none, none⟩
  | step {s : SysState} (e : SysEv) :
      SysReachable permThreshold futureMargin matchId s →
      SysReachable permThreshold futureMargin matchId
        (sysStep permThreshold futureMargin matchId s e)

/-! ## Discovery loops (scripts/ingest_competitions.py: ingest_range_for_url,
ingest_ids_for_url; scripts/ingest_teams_range.py: main)

The loops walk identifiers, skip (`continue`) any whose URL
`is_permanent_404` reports permanently missing, and call `ingest_endpoint`
for all others.  `permanent id` abbreviates
`is_permanent_404(conn, table, template.format(id))`; the returned list holds
the identifiers for which `ingest_endpoint` was called (hence an HTTP request
issued), in call order. -/

/-- scripts/ingest_competitions.py line 65 (and the identical loop of
scripts/ingest_teams_range.py): `for mid in range(start, end + 1)`. -/
def ingest_range_for_url (permanent : Nat → Bool) (start endId : Nat) : List Nat :=
  (List.range' start (endId + 1 - start)).foldl
    (fun attempted mid => if permanent mid then attempted else attempted ++ [mid]) []

/-- scripts/ingest_competitions.py line 85: `for mid in ids`. -/
def ingest_ids_for_url (permanent : Nat → Bool) (ids : List Nat) : List Nat :=
  ids.foldl
    (fun attempted mid => if permanent mid then attempted else attempted ++ [mid]) []

/-! ## Rate limiting

### scripts/bronze/threaded_team_ingest.py: ThreadedTeamIngester.check_rate_limit

Calls are serialized by `self.rate_lock`, so a run is a sequence of calls.
Each call reads the clock (`now`), prunes timestamps older than 60 seconds,
and if the window is full sleeps `61 - (now - min(pruned))` seconds and
prunes again at the post-sleep clock (`now2`) before recording the request
start.  Wall-clock effects (`time.time()` monotone across calls, `time.sleep`
lasting at least the requested duration) are the `ValidCalls` hypotheses. -/

def pruneTimes (now : Int) (times : List Int) : List Int :=
  times.filter (fun t => decide (now - t < 60))

/-- One `check_rate_limit` call: new `request_times` list and the recorded
request-start time. -/
def check_rate_limit (limit : Nat) (times : List Int) (now now2 : Int) :
    List Int × Int :=
  let p := pruneTimes now times
  if limit ≤ p.length then
    let p2 := pruneTimes now2 p
    (p2 ++ [now2], now2)
  else
    (p ++ [now], now)

structure RLState where
  times : List Int
  starts : List Int
  clock : Int
deriving DecidableEq, Repr

def rlStep (limit : Nat) (s : RLState) (c : Int × Int) : RLState :=
  let r := check_rate_limit limit s.times c.1 c.2
  { times := r.1, starts := s.starts ++ [r.2], clock := r.2 }

def rlRun (limit : Nat) (s : RLState) (calls : List (Int × Int)) : RLState :=
  calls.foldl (rlStep limit) s

/-- Wall-clock well-formedness of a call sequence: each call's clock reading
is at or after the previous call's, and when the window is full the post-sleep
clock is at least `min(pruned) + 61` (the source sleeps
`61 - (now - min(pruned))`, which is positive since every pruned timestamp is
within 60 of `now`). -/
def ValidCalls (limit : Nat) : RLState → List (Int × Int) → Prop
  | _, [] => True
  | s, c :: rest =>
    s.clock ≤ c.1 ∧
    (limit ≤ (pruneTimes c.1 s.times).length →
      c.1 ≤ c.2 ∧
      ∃ m ∈ pruneTimes c.1 s.times,
        (∀ t ∈ pruneTimes c.1 s.times, m ≤ t) ∧ m + 61 ≤ c.2) ∧
    ValidCalls limit (rlStep limit s c) rest

/-- Membership of a request start in the rolling 60-second window `(w, w+60]`. -/
def inWindow (w s : Int) : Bool := decide (w < s) && decide (s ≤ w + 60)

/-! ### scripts/bronze/concurrent_team_ingest.py: the asyncio rate limiter

`fetch_team_async` admits a request with `async with self.rate_limiter:`,
i.e. it acquires the semaphore, records `time.time()` in `request_times`,
performs the GET, and — because the `async with` block ends — releases the
permit when the request completes.  `rate_limit_reset` replaces the semaphore
only once every 60 seconds; during the first 60 seconds of a run no reset has
happened yet.  The event loop serializes these steps, so a behaviour within
the first minute is a sequence of acquire (request start, with a timestamp)
and release (request completion) events over a permit counter. -/

inductive AsyncEv where
  | acquire (t : Int) : AsyncEv
  | release : AsyncEv

def asyncStep (s : Nat × List Int) : AsyncEv → Nat × List Int
  | .acquire t => (s.1 - 1, s.2 ++ [t])
  | .release => (s.1 + 1, s.2)

/-- Run the semaphore machine from a full semaphore
(`asyncio.Semaphore(rate_limit_per_minute)`) and no recorded starts; returns
the permit count and the recorded request-start times. -/
def asyncRun (permits : Nat) (evs : List AsyncEv) : Nat × List Int :=
  evs.foldl asyncStep (permits, [])

/-- A valid scheduling within the first minute: an acquire only proceeds when
a permit is free (otherwise the task blocks), acquire timestamps are
non-decreasing and below 60 (no reset has occurred yet), and a release only
happens for an in-flight request. -/
def asyncOk : Nat → Int → Nat → List AsyncEv → Bool
  | _, _, _, [] => true
  | p, lastT, inflight, .acquire t :: rest =>
    decide (1 ≤ p) && decide (lastT ≤ t) && decide (0 ≤ t) && decide (t < 60) &&
      asyncOk (p - 1) t (inflight + 1) rest
  | p, lastT, inflight, .release :: rest =>
    decide (1 ≤ inflight) && asyncOk (p + 1) lastT (inflight - 1) rest

/-- 24 request starts inside the first minute against a limit of 2: two
requests start together, complete, and free their permits for the next pair
every five seconds. -/
def asyncBurstTrace : List AsyncEv :=
  (List.range 12).foldr
    (fun i acc => [AsyncEv.acquire (5 * i), AsyncEv.acquire (5 * i),
      AsyncEv.release, AsyncEv.release] ++ acc) []

/-! ## Auxiliary definitions used by the verification -/

/-- Invariant tying a permanent url_status row to the store state it was
decided against: the flag can only be true when the URL has an identifier, the
family has archived rows, the counter has reached the threshold, and the
identifier is at least the margin below the archived maximum. -/
def SysInv (pt : Nat) (fm : Int) (mi : Option Int) (s : SysState) : Prop :=
  ∀ r : UrlRecord, s.urlRec = some r → r.permanent404 = true →
    ∃ mid mm : Int, mi = some mid ∧ s.storeMax = some mm ∧
      pt ≤ r.consecutive404 ∧ mid ≤ mm - fm

/-- A concrete reachable state with a permanent record: identifier 50, one
archived row with match_number 100, then five consecutive 404s. -/
def permScenarioState : SysState :=
  sysStep 5 10 (some 50)
    (sysStep 5 10 (some 50)
      (sysStep 5 10 (some 50)
        (sysStep 5 10 (some 50)
          (sysStep 5 10 (some 50)
            (sysStep 5 10 (some 50) ⟨none, none⟩ (.archive (some 100)))
            (.attempt 1 (some 404) false))
          (.attempt 2 (some 404) false))
        (.attempt 3 (some 404) false))
      (.attempt 4 (some 404) false))
    (.attempt 5 (some 404) false)

/-- Attempt outcomes refuting the claimed exhaustion contract: attempt 1
receives a retryable 500 response, every later attempt raises a transport
exception. -/
def respThenExc : Nat → FetchAttempt :=
  fun i => if i = 1 then .resp 500 else .exc 7

/-- Invariant of the threaded rate limiter run: the recorded `request_times`
never exceed the limit and all lie in the past; every recorded start lies in
the past; `request_times` holds exactly the starts of the last 60 seconds
(older ones were pruned); and every rolling 60-second window holds at most
`limit` starts. -/
def RLInv (limit : Nat) (s : RLState) : Prop :=
  s.times.length ≤ limit ∧
  (∀ t ∈ s.times, t ≤ s.clock) ∧
  (∀ e ∈ s.starts, e ≤ s.clock) ∧
  (∀ x : Int, s.clock - x < 60 → s.times.count x = s.starts.count x) ∧
  (∀ w : Int, s.starts.countP (inWindow w) ≤ limit)

/-! ## Serialization lemmas -/

theorem dumps_arr (xs : List Jval) :
    dumps (.arr xs) = "[" ++ joinComma (xs.map dumps) ++ "]" := by
  rw [dumps]
  congr 1
  · congr 1
    rw [List.attach_map_val xs dumps]

theorem dumps_obj (kvs : List (String × Jval)) :
    dumps (.obj kvs) = "\x7b" ++ joinComma ((sortEntries kvs).map
      (fun kv => quoteStr kv.1 ++ ":" ++ dumps kv.2)) ++ "\x7d" := by
  rw [dumps]
  congr 2
  rw [List.attach_map_val (sortEntries kvs) (fun kv => quoteStr kv.1 ++ ":" ++ dumps kv.2)]

theorem lookupKey_eq_some_of_mem {k : String} {v : Jval} :
    ∀ {l : List (String × Jval)}, (l.map Prod.fst).Nodup → (k, v) ∈ l →
      lookupKey k l = some v := by
  intro l
  induction l with
  | nil => intro _ h; cases h
  | cons hd t ih =>
    intro hnd hmem
    obtain ⟨k', v'⟩ := hd
    simp only [List.map_cons, List.nodup_cons] at hnd
    rcases List.mem_cons.mp hmem with heq | htl
    · cases heq
      simp [lookupKey]
    · have hk : k' ≠ k := by
        intro h
        subst h
        exact hnd.1 (List.mem_map.mpr ⟨(k', v), htl, rfl⟩)
      simp only [lookupKey, if_neg hk]
      exact ih hnd.2 htl

theorem mem_of_lookupKey_eq_some {k : String} {v : Jval} :
    ∀ {l : List (String × Jval)}, lookupKey k l = some v → (k, v) ∈ l := by
  intro l
  induction l with
  | nil => intro h; cases h
  | cons hd t ih =>
    intro h
    obtain ⟨k', v'⟩ := hd
    simp only [lookupKey] at h
    by_cases hk : k' = k
    · rw [if_pos hk] at h
      injection h with h2
      subst hk
      subst h2
      exact List.mem_cons_self _ _
    · rw [if_neg hk] at h
      exact List.mem_cons_of_mem _ (ih h)

theorem key_mem_of_lookupKey_eq_some {k : String} {v : Jval} {l : List (String × Jval)}
    (h : lookupKey k l = some v) : k ∈ l.map Prod.fst :=
  List.mem_map.mpr ⟨(k, v), mem_of_lookupKey_eq_some h, rfl⟩

/-- Serializing two key-sorted, duplicate-free entry lists that bind the same
keys to values with equal serializations yields the same list of
`"key":value` fragments. -/
theorem dumpsEntries_eq :
    ∀ (l1 l2 : List (String × Jval)),
      List.Sorted keyLE l1 → List.Sorted keyLE l2 →
      (l1.map Prod.fst).Nodup → (l2.map Prod.fst).Nodup →
      (∀ k, k ∈ l1.map Prod.fst ↔ k ∈ l2.map Prod.fst) →
      (∀ k v v', lookupKey k l1 = some v → lookupKey k l2 = some v' →
        dumps v = dumps v') →
      l1.map (fun kv => quoteStr kv.1 ++ ":" ++ dumps kv.2)
        = l2.map (fun kv => quoteStr kv.1 ++ ":" ++ dumps kv.2) := by
  intro l1
  induction l1 with
  | nil =>
    intro l2 _ _ _ _ hkeys _
    cases l2 with
    | nil => rfl
    | cons hd t =>
      exfalso
      have := (hkeys hd.1).mpr (by simp)
      simp at this
  | cons hd t ih =>
    intro l2 hs1 hs2 hnd1 hnd2 hkeys hvals
    obtain ⟨k, v⟩ := hd
    cases l2 with
    | nil =>
      exfalso
      have := (hkeys k).mp (by simp)
      simp at this
    | cons hd2 t2 =>
      obtain ⟨k', v'⟩ := hd2
      simp only [List.map_cons, List.nodup_cons] at hnd1 hnd2
      -- the two heads carry the same (minimal) key
      have hk : k = k' := by
        have h1 : k' ≤ k := by
          have hmem : k = k' ∨ k ∈ t2.map Prod.fst := by
            simpa using (hkeys k).mp (by simp)
          rcases hmem with heq | htl
          · exact le_of_eq heq.symm
          · rcases List.mem_map.mp htl with ⟨⟨a, b⟩, hm, hfst⟩
            simp only at hfst
            subst hfst
            have hle := (List.pairwise_cons.mp hs2).1 (a, b) hm
            simpa [keyLE] using hle
        have h2 : k ≤ k' := by
          have hmem : k' = k ∨ k' ∈ t.map Prod.fst := by
            simpa using (hkeys k').mpr (by simp)
          rcases hmem with heq | htl
          · exact le_of_eq heq.symm
          · rcases List.mem_map.mp htl with ⟨⟨a, b⟩, hm, hfst⟩
            simp only at hfst
            subst hfst
            have hle := (List.pairwise_cons.mp hs1).1 (a, b) hm
            simpa [keyLE] using hle
        exact le_antisymm h2 h1
      subst hk
      have hv : dumps v = dumps v' :=
        hvals k v v' (by simp [lookupKey]) (by simp [lookupKey])
      simp only [List.map_cons, hv]
      congr 1
      apply ih t2 (List.Sorted.of_cons hs1) (List.Sorted.of_cons hs2) hnd1.2 hnd2.2
      · intro x
        constructor
        · intro hx
          have hxk : x ≠ k := fun hh => hnd1.1 (hh ▸ hx)
          have hmem : x = k ∨ x ∈ t2.map Prod.fst := by
            simpa using (hkeys x).mp (by simp [hx])
          exact hmem.resolve_left hxk
        · intro hx
          have hxk : x ≠ k := fun hh => hnd2.1 (hh ▸ hx)
          have hmem : x = k ∨ x ∈ t.map Prod.fst := by
            simpa using (hkeys x).mpr (by simp [hx])
          exact hmem.resolve_left hxk
      · intro x w w' hw hw'
        have hxk1 : x ≠ k := by
          intro hh
          subst hh
          exact hnd1.1 (key_mem_of_lookupKey_eq_some hw)
        have hne : ¬ (k = x) := fun hh => hxk1 hh.symm
        apply hvals x w w'
        · simp only [lookupKey, if_neg hne]
          exact hw
        · simp only [lookupKey, if_neg hne]
          exact hw'

theorem sortEntries_keys_mem (k : String) (kvs : List (String × Jval)) :
    k ∈ (sortEntries kvs).map Prod.fst ↔ k ∈ kvs.map Prod.fst :=
  ((List.perm_insertionSort keyLE kvs).map Prod.fst).mem_iff

theorem sortEntries_keys_nodup {kvs : List (String × Jval)}
    (h : (kvs.map Prod.fst).Nodup) : ((sortEntries kvs).map Prod.fst).Nodup :=
  (((List.perm_insertionSort keyLE kvs).map Prod.fst).nodup_iff).mpr h

theorem lookupKey_sortEntries {k : String} {v : Jval} {kvs : List (String × Jval)}
    (hnd : (kvs.map Prod.fst).Nodup) :
    lookupKey k (sortEntries kvs) = some v ↔ lookupKey k kvs = some v := by
  constructor
  · intro h
    have := mem_of_lookupKey_eq_some h
    exact lookupKey_eq_some_of_mem hnd
      ((List.perm_insertionSort keyLE kvs).mem_iff.mp this)
  · intro h
    have := mem_of_lookupKey_eq_some h
    exact lookupKey_eq_some_of_mem (sortEntries_keys_nodup hnd)
      ((List.perm_insertionSort keyLE kvs).mem_iff.mpr this)

/-- Canonical serialization is invariant under structural value equality. -/
theorem dumps_eq_of_valEq {a b : Jval} (h : ValEq a b) : dumps a = dumps b := by
  induction h with
  | null => rfl
  | bool b => rfl
  | num n => rfl
  | str s => rfl
  | arr xs ys hlen h ih =>
    have hmap : xs.map dumps = ys.map dumps := by
      apply List.ext_getElem (by simpa using hlen)
      intro i h1 h2
      simp only [List.getElem_map]
      have := ih i (by simpa using h1) (by simpa using h2)
      simpa [List.get_eq_getElem] using this
    rw [dumps_arr, dumps_arr, hmap]
  | obj kvs kvs' nd nd' hkeys hvals ih =>
    have hmap : (sortEntries kvs).map (fun kv => quoteStr kv.1 ++ ":" ++ dumps kv.2)
        = (sortEntries kvs').map (fun kv => quoteStr kv.1 ++ ":" ++ dumps kv.2) := by
      apply dumpsEntries_eq
      · exact List.sorted_insertionSort keyLE kvs
      · exact List.sorted_insertionSort keyLE kvs'
      · exact sortEntries_keys_nodup nd
      · exact sortEntries_keys_nodup nd'
      · intro k
        rw [sortEntries_keys_mem, sortEntries_keys_mem]
        exact hkeys k
      · intro k v v' hv hv'
        exact ih k v v' ((lookupKey_sortEntries nd).mp hv)
          ((lookupKey_sortEntries nd').mp hv')
    rw [dumps_obj, dumps_obj, hmap]

/-! ## Helper lemmas about the embedded operations -/

theorem runIngest_foldl_tried (hashFn : String → String)
    (targets : List (String × Option Int × FetchOutcome × Bool)) :
    ∀ acc : List StoreRow × Nat × Nat,
      (targets.foldl
        (fun acc t =>
          let r := ingest_endpoint hashFn acc.1 t.1 t.2.1 t.2.2.1 t.2.2.2
          (r.2.1, acc.2.1 + 1, if r.1 then acc.2.2 + 1 else acc.2.2))
        acc).2.1 = acc.2.1 + targets.length := by
  induction targets with
  | nil => intro acc; simp
  | cons t rest ih =>
    intro acc
    rw [List.foldl_cons, ih]
    simp
    omega

theorem skip_loop_eq_filter (p : Nat → Bool) (l : List Nat) :
    ∀ acc : List Nat,
      l.foldl (fun attempted mid => if p mid then attempted else attempted ++ [mid]) acc
        = acc ++ l.filter (fun mid => !p mid) := by
  induction l with
  | nil => intro acc; simp
  | cons mid rest ih =>
    intro acc
    rw [List.foldl_cons]
    cases hp : p mid with
    | true => rw [if_pos rfl, ih, List.filter_cons, hp]; simp
    | false => rw [if_neg (by simp), ih, List.filter_cons, hp]; simp

/-! ## Claims -/

/-- C3: Permanence threshold decision — with `PERM_404_CONSECUTIVE = 5`,
`FUTURE_MARGIN = 10` and `MAX(match_number) = 100`, five consecutive 404s mark
identifier 50 permanent (50 ≤ 100 - 10) but leave identifier 98 unmarked
(98 > 100 - 10); after only four 404s identifier 50 is still unmarked. -/
theorem update_url_status_permanence_threshold :
    ((applyEvents 5 10 (some 50) (some 100) none 0
        (List.replicate 5 ((some 404 : Option Int), false))).map
        (fun r => r.permanent404) = some true)
    ∧ ((applyEvents 5 10 (some 50) (some 100) none 0
        (List.replicate 5 ((some 404 : Option Int), false))).map
        (fun r => r.consecutive404) = some 5)
    ∧ ((applyEvents 5 10 (some 98) (some 100) none 0
        (List.replicate 5 ((some 404 : Option Int), false))).map
        (fun r => r.permanent404) = some false)
    ∧ ((applyEvents 5 10 (some 50) (some 100) none 0
        (List.replicate 4 ((some 404 : Option Int), false))).map
        (fun r => r.permanent404) = some false) := by
  decide

/-- C6: Non-404 failure isolation — recording a failure whose status is not
404 (including `None` for transport/persistence errors) only touches
`last_checked` and `last_status`; and five consecutive 500 responses never set
`permanent_404` on a record that does not already have it. -/
theorem update_url_status_non404_frame
    (pt : Nat) (fm : Int) (mi mm : Option Int) (r : UrlRecord) (now : Int)
    (status : Option Int) (hst : status ≠ some 404) :
    update_url_status pt fm mi mm (some r) now status false
      = { r with lastChecked := now, lastStatus := status } ∧
    ∀ rc : Option UrlRecord, is_permanent_404 rc = false →
      is_permanent_404 (applyEvents pt fm mi mm rc now
        (List.replicate 5 ((some 500 : Option Int), false))) = false := by
  constructor
  · simp [update_url_status, hst]
  · have hstep : ∀ rc0 : Option UrlRecord, is_permanent_404 rc0 = false →
        is_permanent_404
          (some (update_url_status pt fm mi mm rc0 now (some 500) false)) = false := by
      intro rc0 h0
      cases rc0 with
      | none => simp [update_url_status, is_permanent_404]
      | some r0 =>
        simp [is_permanent_404] at h0
        simp [update_url_status, is_permanent_404, h0]
    intro rc hrc
    simp only [applyEvents, List.replicate, List.foldl]
    exact hstep _ (hstep _ (hstep _ (hstep _ (hstep _ hrc))))

/-- Witness for C6 at a concrete record and a 500-status failure. -/
theorem update_url_status_non404_frame_witness :
    ((some 500 : Option Int) ≠ some 404) ∧
    update_url_status 5 10 (some 50) (some 100)
        (some ⟨some 50, 0, some 200, 0, none, some 0, false⟩) 7 (some 500) false
      = { matchId := some 50, lastChecked := 7, lastStatus := some 500,
          consecutive404 := 0, first404At := none, lastSuccessAt := some 0,
          permanent404 := false } ∧
    is_permanent_404 (applyEvents 5 10 (some 50) (some 100)
        (some ⟨some 50, 0, some 200, 0, none, some 0, false⟩) 7
        (List.replicate 5 ((some 500 : Option Int), false))) = false := by
  have h := update_url_status_non404_frame 5 10 (some 50) (some 100)
    ⟨some 50, 0, some 200, 0, none, some 0, false⟩ 7 (some 500) (by decide)
  exact ⟨by decide, h.1, h.2 (some ⟨some 50, 0, some 200, 0, none, some 0, false⟩) (by decide)⟩

/-- C1: Content Store idempotency — when a row with the payload's
canonical-content digest already exists, the `ON CONFLICT (source_hash) DO
NOTHING` insert adds no row and `ingest_endpoint` reports `False` (while still
recording a success); consequently ingesting the same canonical payload twice
from a digest-free store leaves exactly one row with that digest. -/
theorem ingest_endpoint_idempotent (hashFn : String → String) (st : List StoreRow)
    (url : String) (urlId : Option Int) (payload : Jval) :
    (st.any (fun r => r.sourceHash == hashFn (canonicalize_json payload)) = true →
      ingest_endpoint hashFn st url urlId (.httpResp 200 (some payload)) false
        = (false, st, [(some 200, true)])) ∧
    (st.countP (fun r => r.sourceHash == hashFn (canonicalize_json payload)) = 0 →
      (ingest_endpoint hashFn st url urlId (.httpResp 200 (some payload)) false).1 = true ∧
      ((ingest_endpoint hashFn
          (ingest_endpoint hashFn st url urlId (.httpResp 200 (some payload)) false).2.1
          url urlId (.httpResp 200 (some payload)) false).1 = false ∧
        (ingest_endpoint hashFn
          (ingest_endpoint hashFn st url urlId (.httpResp 200 (some payload)) false).2.1
          url urlId (.httpResp 200 (some payload)) false).2.1
          = (ingest_endpoint hashFn st url urlId (.httpResp 200 (some payload)) false).2.1 ∧
        ((ingest_endpoint hashFn st url urlId
            (.httpResp 200 (some payload)) false).2.1).countP
            (fun r => r.sourceHash == hashFn (canonicalize_json payload)) = 1)) := by
  constructor
  · intro h
    simp [ingest_endpoint, insertOnConflictHash, h]
  · intro h0
    have hall : ∀ r ∈ st, ¬ (r.sourceHash == hashFn (canonicalize_json payload)) = true :=
      List.countP_eq_zero.mp h0
    have hany : st.any (fun r => r.sourceHash == hashFn (canonicalize_json payload)) = false := by
      rw [List.any_eq_false]
      exact hall
    have h1 : ingest_endpoint hashFn st url urlId (.httpResp 200 (some payload)) false
        = (true, st ++ [⟨matchNumberOf payload urlId, payload, url,
            hashFn (canonicalize_json payload)⟩], [(some 200, true)]) := by
      simp [ingest_endpoint, insertOnConflictHash, hany]
    rw [h1]
    have hany2 : (st ++ [(⟨matchNumberOf payload urlId, payload, url,
        hashFn (canonicalize_json payload)⟩ : StoreRow)]).any
        (fun r => r.sourceHash == hashFn (canonicalize_json payload)) = true := by
      simp
    refine ⟨rfl, ?_, ?_, ?_⟩
    · simp [ingest_endpoint, insertOnConflictHash, hany2]
    · simp [ingest_endpoint, insertOnConflictHash, hany2]
    · rw [List.countP_append, h0]
      simp [List.countP_cons]

/-- Witness for C1: a one-row store already holding the digest, and a fresh
empty store receiving the same payload twice. -/
theorem ingest_endpoint_idempotent_witness :
    (([(⟨none, .null, "u", "x"⟩ : StoreRow)].any
        (fun r => r.sourceHash == (fun _ => "x") (canonicalize_json .null))) = true ∧
      ingest_endpoint (fun _ => "x") [⟨none, .null, "u", "x"⟩] "u" none
        (.httpResp 200 (some .null)) false
        = (false, [⟨none, .null, "u", "x"⟩], [(some 200, true)])) ∧
    (([] : List StoreRow).countP
        (fun r => r.sourceHash == (fun _ => "x") (canonicalize_json .null)) = 0 ∧
      (ingest_endpoint (fun _ => "x") [] "u" none (.httpResp 200 (some .null)) false).1 = true ∧
      ((ingest_endpoint (fun _ => "x")
          (ingest_endpoint (fun _ => "x") [] "u" none (.httpResp 200 (some .null)) false).2.1
          "u" none (.httpResp 200 (some .null)) false).1 = false ∧
        (ingest_endpoint (fun _ => "x")
          (ingest_endpoint (fun _ => "x") [] "u" none (.httpResp 200 (some .null)) false).2.1
          "u" none (.httpResp 200 (some .null)) false).2.1
          = (ingest_endpoint (fun _ => "x") [] "u" none (.httpResp 200 (some .null)) false).2.1 ∧
        ((ingest_endpoint (fun _ => "x") [] "u" none
            (.httpResp 200 (some .null)) false).2.1).countP
            (fun r => r.sourceHash == (fun _ => "x") (canonicalize_json .null)) = 1)) := by
  have hA : ([(⟨none, .null, "u", "x"⟩ : StoreRow)].any
      (fun r => r.sourceHash == (fun _ => "x") (canonicalize_json .null))) = true := by
    simp [canonicalize_json, dumps]
  have hB : (([] : List StoreRow)).countP
      (fun r => r.sourceHash == (fun _ => "x") (canonicalize_json .null)) = 0 := by
    simp
  refine ⟨⟨hA, (ingest_endpoint_idempotent (fun _ => "x")
    [⟨none, .null, "u", "x"⟩] "u" none .null).1 hA⟩,
    hB, (ingest_endpoint_idempotent (fun _ => "x") [] "u" none .null).2 hB⟩

/-- C10: a duplicate fetch still advances health to success — on a payload
whose digest is already stored, `ingest_endpoint` returns `False` (as for
failures) yet records the attempt as `update_url_status(..., 200, success=True)`,
identical to the call made for a newly inserted row, and applying that call
resets `consecutive_404` to 0, clears `first_404_at` and clears
`permanent_404`. -/
theorem ingest_endpoint_duplicate_advances_health (hashFn : String → String)
    (st : List StoreRow) (url : String) (urlId : Option Int) (payload : Jval)
    (pt : Nat) (fm : Int) (mi mm : Option Int) (now : Int)
    (hdup : st.any (fun r => r.sourceHash == hashFn (canonicalize_json payload)) = true) :
    (ingest_endpoint hashFn st url urlId (.httpResp 200 (some payload)) false).1 = false ∧
    (ingest_endpoint hashFn st url urlId (.httpResp 200 (some payload)) false).2.2
      = [(some 200, true)] ∧
    (∀ st2 : List StoreRow,
      (ingest_endpoint hashFn st2 url urlId (.httpResp 200 (some payload)) false).2.2
        = [(some 200, true)]) ∧
    ∀ rc : Option UrlRecord, ∃ r' : UrlRecord,
      applyEvents pt fm mi mm rc now
          ((ingest_endpoint hashFn st url urlId (.httpResp 200 (some payload)) false).2.2)
        = some r' ∧
      r'.consecutive404 = 0 ∧ r'.first404At = none ∧ r'.permanent404 = false := by
  refine ⟨by simp [ingest_endpoint, insertOnConflictHash, hdup],
    by simp [ingest_endpoint, insertOnConflictHash, hdup], ?_, ?_⟩
  · intro st2
    cases h2 : st2.any (fun r => r.sourceHash == hashFn (canonicalize_json payload)) with
    | true => simp [ingest_endpoint, insertOnConflictHash, h2]
    | false => simp [ingest_endpoint, insertOnConflictHash, h2]
  · intro rc
    refine ⟨update_url_status pt fm mi mm rc now (some 200) true, ?_, ?_, ?_, ?_⟩
    · simp [ingest_endpoint, insertOnConflictHash, hdup, applyEvents]
    · cases rc <;> simp [update_url_status]
    · cases rc <;> simp [update_url_status]
    · cases rc <;> simp [update_url_status]

/-- Witness for C10 at a concrete one-row store and an existing 404-laden
record. -/
theorem ingest_endpoint_duplicate_advances_health_witness :
    (([(⟨none, .null, "u", "x"⟩ : StoreRow)].any
        (fun r => r.sourceHash == (fun _ => "x") (canonicalize_json .null))) = true) ∧
    (ingest_endpoint (fun _ => "x") [⟨none, .null, "u", "x"⟩] "u" none
        (.httpResp 200 (some .null)) false).1 = false ∧
    (∃ r' : UrlRecord,
      applyEvents 5 10 (some 50) (some 100)
          (some ⟨some 50, 0, some 404, 7, some 0, none, true⟩) 9
          ((ingest_endpoint (fun _ => "x") [⟨none, .null, "u", "x"⟩] "u" none
            (.httpResp 200 (some .null)) false).2.2)
        = some r' ∧
      r'.consecutive404 = 0 ∧ r'.first404At = none ∧ r'.permanent404 = false) := by
  have hA : ([(⟨none, .null, "u", "x"⟩ : StoreRow)].any
      (fun r => r.sourceHash == (fun _ => "x") (canonicalize_json .null))) = true := by
    simp [canonicalize_json, dumps]
  have h := ingest_endpoint_duplicate_advances_health (fun _ => "x")
    [⟨none, .null, "u", "x"⟩] "u" none .null 5 10 (some 50) (some 100) 9 hA
  exact ⟨hA, h.1, h.2.2.2 (some ⟨some 50, 0, some 404, 7, some 0, none, true⟩)⟩

/-- C8 (amended): `ingest_endpoint` updates the health record on non-200
responses, on stored/duplicate 200 responses and on persistence failures, but
makes no `update_url_status` call when the fetch raises after exhausting
retries or when a 200 body fails to parse as JSON; every outcome is converted
into a `False`/`True` return, and the `run_ingest` loop processes every
configured target regardless of outcomes. -/
theorem ingest_endpoint_health_accounting (hashFn : String → String)
    (st : List StoreRow) (url : String) (urlId : Option Int) (payload : Jval)
    (status : Int) (body : Option Jval) (dbFails : Bool) (e : Nat)
    (hst : status ≠ 200) :
    (ingest_endpoint hashFn st url urlId (.netFail e) dbFails = (false, st, [])) ∧
    (ingest_endpoint hashFn st url urlId (.httpResp status body) dbFails
      = (false, st, [(some status, false)])) ∧
    (ingest_endpoint hashFn st url urlId (.httpResp 200 none) dbFails = (false, st, [])) ∧
    (ingest_endpoint hashFn st url urlId (.httpResp 200 (some payload)) true
      = (false, st, [(none, false)])) ∧
    ((ingest_endpoint hashFn st url urlId (.httpResp 200 (some payload)) false).2.2
      = [(some 200, true)]) ∧
    (∀ (targets : List (String × Option Int × FetchOutcome × Bool)) (st0 : List StoreRow),
      (run_ingest hashFn st0 targets).2.1 = targets.length) := by
  refine ⟨by simp [ingest_endpoint], by simp [ingest_endpoint, hst],
    by simp [ingest_endpoint], by simp [ingest_endpoint], ?_, ?_⟩
  · cases h2 : st.any (fun r => r.sourceHash == hashFn (canonicalize_json payload)) with
    | true => simp [ingest_endpoint, insertOnConflictHash, h2]
    | false => simp [ingest_endpoint, insertOnConflictHash, h2]
  · intro targets st0
    rw [run_ingest, runIngest_foldl_tried]
    simp

/-- Witness for C8's amended statement at concrete inputs. -/
theorem ingest_endpoint_health_accounting_witness :
    ((404 : Int) ≠ 200) ∧
    (ingest_endpoint (fun _ => "x") [] "u" none (.netFail 0) false = (false, [], [])) ∧
    (ingest_endpoint (fun _ => "x") [] "u" none (.httpResp 404 none) false
      = (false, [], [(some 404, false)])) ∧
    (run_ingest (fun _ => "x") []
      [("u", none, .netFail 0, false), ("v", none, .httpResp 404 none, false)]).2.1 = 2 := by
  have h := ingest_endpoint_health_accounting (fun _ => "x") [] "u" none .null 404 none
    false 0 (by decide)
  exact ⟨by decide, h.1, h.2.1,
    h.2.2.2.2.2 [("u", none, .netFail 0, false), ("v", none, .httpResp 404 none, false)] []⟩

/-- Counterexample to C8 as stated: a transport failure after exhausted
retries and a malformed 200 body each produce NO `update_url_status` call —
the health record is not updated on these fetch attempts. -/
theorem ingest_endpoint_missing_health_update_counterexample :
    (ingest_endpoint (fun s => s) [] "https://host/api/1" (some 1)
      (.netFail 0) false).2.2 = [] ∧
    (ingest_endpoint (fun s => s) [] "https://host/api/1" (some 1)
      (.httpResp 200 none) false).2.2 = [] := by
  constructor <;> rfl

/-- C5: Canonicalization stability — two payload documents that are equal as
structured values (differing only in object key order, or in insignificant
whitespace of the source text, which the parse already discards) canonicalize
to the identical string, so any digest of the canonical form — in particular
SHA-256 — is identical. -/
theorem canonicalize_json_stable (a b : Jval) (h : ValEq a b) :
    canonicalize_json a = canonicalize_json b ∧
    ∀ digest : String → String,
      digest (canonicalize_json a) = digest (canonicalize_json b) := by
  have hd : canonicalize_json a = canonicalize_json b := dumps_eq_of_valEq h
  exact ⟨hd, fun digest => by rw [hd]⟩

/-- Witness for C5: the same two-key object with its keys in either order. -/
theorem canonicalize_json_stable_witness :
    ValEq (.obj [("b", .num 2), ("a", .num 1)]) (.obj [("a", .num 1), ("b", .num 2)]) ∧
    canonicalize_json (.obj [("b", .num 2), ("a", .num 1)])
      = canonicalize_json (.obj [("a", .num 1), ("b", .num 2)]) := by
  have hv : ValEq (.obj [("b", .num 2), ("a", .num 1)])
      (.obj [("a", .num 1), ("b", .num 2)]) := by
    apply ValEq.obj
    · simp
    · simp
    · intro k
      simp only [List.map_cons, List.map_nil, List.mem_cons, List.not_mem_nil, or_false]
      tauto
    · intro k v v' h1 h2
      by_cases hb : "b" = k
      · subst hb
        simp [lookupKey] at h1 h2
        rw [← h1, ← h2]
        exact ValEq.num 2
      · by_cases ha : "a" = k
        · subst ha
          simp [lookupKey, hb] at h1 h2
          rw [← h1, ← h2]
          exact ValEq.num 1
        · simp [lookupKey, hb, ha] at h1
  exact ⟨hv, (canonicalize_json_stable _ _ hv).1⟩

theorem sysStep_preserves_inv (pt : Nat) (fm : Int) (mi : Option Int)
    (s : SysState) (e : SysEv) (hinv : SysInv pt fm mi s) :
    SysInv pt fm mi (sysStep pt fm mi s e) := by
  obtain ⟨smax, srec⟩ := s
  cases e with
  | archive mn =>
    cases mn with
    | none =>
      intro r hr hperm
      cases smax <;> exact hinv r (by simpa [sysStep] using hr) hperm
    | some v =>
      cases smax with
      | none =>
        intro r hr hperm
        obtain ⟨mid, mm, hmi, hmm, hc, hle⟩ := hinv r (by simpa [sysStep] using hr) hperm
        exact absurd hmm (by simp)
      | some m =>
        intro r hr hperm
        obtain ⟨mid, mm, hmi, hmm, hc, hle⟩ := hinv r (by simpa [sysStep] using hr) hperm
        have h2 : m = mm := by simpa using hmm
        refine ⟨mid, max m v, hmi, by simp [sysStep], hc, ?_⟩
        have h1 : m ≤ max m v := le_max_left m v
        omega
  | attempt now status success =>
    intro r hr hperm
    simp only [sysStep, Option.some.injEq] at hr
    subst hr
    cases success with
    | true =>
      simp [update_url_status] at hperm
    | false =>
      by_cases h404 : status = some 404
      · subst h404
        cases hmx : smax with
        | none =>
          rw [hmx] at hperm
          simp [update_url_status] at hperm
        | some mm =>
          cases hmi : mi with
          | none =>
            rw [hmx, hmi] at hperm
            simp [update_url_status] at hperm
          | some mid =>
            rw [hmx, hmi] at hperm
            simp [update_url_status] at hperm
            refine ⟨mid, mm, rfl, by simp [sysStep], ?_, hperm.2⟩
            simp [update_url_status]
            exact hperm.1
      · cases srec with
        | none =>
          simp [update_url_status, h404] at hperm
        | some r1 =>
          have hp1 : r1.permanent404 = true := by
            simpa [update_url_status, h404] using hperm
          obtain ⟨mid, mm, hmi, hmm, hc, hle⟩ := hinv r1 rfl hp1
          have h2 : smax = some mm := by simpa using hmm
          refine ⟨mid, mm, hmi, by simp [sysStep, h2], ?_, hle⟩
          simpa [update_url_status, h404] using hc

theorem sysReachable_inv {pt : Nat} {fm : Int} {mi : Option Int} {s : SysState}
    (h : SysReachable pt fm mi s) : SysInv pt fm mi s := by
  induction h with
  | init => intro r hr; cases hr
  | step e _ ih => exact sysStep_preserves_inv _ _ _ _ e ih

/-- C2: Permanence monotonicity — in any reachable tracker/store state whose
url_status row has `permanent_404 = true`, recording a further failure (404 or
any other non-success status) through `update_url_status` leaves
`permanent_404 = true`; recording a success clears it and also resets
`consecutive_404` to 0 and `first_404_at` to NULL. -/
theorem update_url_status_permanence_monotone (pt : Nat) (fm : Int) (mi : Option Int)
    (s : SysState) (hreach : SysReachable pt fm mi s) (r : UrlRecord)
    (hrec : s.urlRec = some r) (hperm : r.permanent404 = true) :
    (∀ (now : Int) (status : Option Int),
      (update_url_status pt fm mi s.storeMax s.urlRec now status false).permanent404
        = true) ∧
    (∀ (now : Int) (status : Option Int),
      (update_url_status pt fm mi s.storeMax s.urlRec now status true).permanent404
          = false ∧
        (update_url_status pt fm mi s.storeMax s.urlRec now status true).consecutive404
          = 0 ∧
        (update_url_status pt fm mi s.storeMax s.urlRec now status true).first404At
          = none) := by
  obtain ⟨mid, mm, hmi, hmm, hc, hle⟩ := sysReachable_inv hreach r hrec hperm
  constructor
  · intro now status
    rw [hrec, hmi, hmm]
    by_cases h404 : status = some 404
    · subst h404
      simp [update_url_status]
      omega
    · simp [update_url_status, h404, hperm]
  · intro now status
    rw [hrec]
    refine ⟨?_, ?_, ?_⟩ <;> simp [update_url_status]

/-- Witness for C2: the concrete reachable scenario (archive 100, then five
404s on identifier 50) has a permanent record, and both conclusions hold at a
concrete later failure and success. -/
theorem update_url_status_permanence_monotone_witness :
    (permScenarioState.urlRec.map (fun r => r.permanent404) = some true) ∧
    (update_url_status 5 10 (some 50) permScenarioState.storeMax
        permScenarioState.urlRec 6 (some 404) false).permanent404 = true ∧
    (update_url_status 5 10 (some 50) permScenarioState.storeMax
        permScenarioState.urlRec 6 (some 500) false).permanent404 = true ∧
    (update_url_status 5 10 (some 50) permScenarioState.storeMax
        permScenarioState.urlRec 7 (some 200) true).permanent404 = false := by
  have hreach : SysReachable 5 10 (some 50) permScenarioState :=
    SysReachable.step _ (SysReachable.step _ (SysReachable.step _ (SysReachable.step _
      (SysReachable.step _ (SysReachable.step _ SysReachable.init)))))
  have hrec : permScenarioState.urlRec
      = some ⟨some 50, 5, some 404, 5, some 1, none, true⟩ := by decide
  have h := update_url_status_permanence_monotone 5 10 (some 50) permScenarioState hreach
    ⟨some 50, 5, some 404, 5, some 1, none, true⟩ hrec (by decide)
  exact ⟨by rw [hrec]; rfl, h.1 6 (some 404), h.1 6 (some 500), (h.2 7 (some 200)).1⟩

theorem httpGetGo_not_retry (outcomes : Nat → FetchAttempt) (maxRetries attempt : Nat)
    (h : should_retry (outcomes attempt) = false) :
    httpGetGo outcomes maxRetries attempt = (finishAttempt (outcomes attempt), attempt) := by
  rw [httpGetGo]
  simp [h]

theorem httpGetGo_retry_step (outcomes : Nat → FetchAttempt) (maxRetries attempt : Nat)
    (h : should_retry (outcomes attempt) = true) (hlt : attempt < maxRetries) :
    httpGetGo outcomes maxRetries attempt = httpGetGo outcomes maxRetries (attempt + 1) := by
  rw [httpGetGo]
  simp [h, Nat.not_le.mpr hlt]

theorem httpGetGo_exhaust (outcomes : Nat → FetchAttempt) (maxRetries attempt : Nat)
    (h : should_retry (outcomes attempt) = true) (hle : maxRetries ≤ attempt) :
    httpGetGo outcomes maxRetries attempt = (finishAttempt (outcomes attempt), attempt) := by
  rw [httpGetGo]
  simp [h, hle]

theorem httpGetGo_first_stop (outcomes : Nat → FetchAttempt) (maxRetries : Nat) :
    ∀ (n attempt k : Nat), k = attempt + n → k ≤ maxRetries →
      (∀ i, attempt ≤ i → i < k → should_retry (outcomes i) = true) →
      should_retry (outcomes k) = false →
      httpGetGo outcomes maxRetries attempt = (finishAttempt (outcomes k), k) := by
  intro n
  induction n with
  | zero =>
    intro attempt k hk _ _ hstop
    have : k = attempt := by omega
    subst this
    exact httpGetGo_not_retry outcomes maxRetries k hstop
  | succ m ih =>
    intro attempt k hk hle hall hstop
    have hretry : should_retry (outcomes attempt) = true :=
      hall attempt (le_refl attempt) (by omega)
    have hlt : attempt < maxRetries := by omega
    rw [httpGetGo_retry_step outcomes maxRetries attempt hretry hlt]
    exact ih (attempt + 1) k (by omega) hle (fun i h1 h2 => hall i (by omega) h2) hstop

theorem httpGetGo_run_out (outcomes : Nat → FetchAttempt) (maxRetries : Nat) :
    ∀ (n attempt : Nat), maxRetries = attempt + n →
      (∀ i, attempt ≤ i → i < maxRetries → should_retry (outcomes i) = true) →
      httpGetGo outcomes maxRetries attempt
        = (finishAttempt (outcomes maxRetries), maxRetries) := by
  intro n
  induction n with
  | zero =>
    intro attempt hk _
    have : maxRetries = attempt := by omega
    subst this
    cases h : should_retry (outcomes maxRetries) with
    | true => exact httpGetGo_exhaust outcomes maxRetries maxRetries h (le_refl _)
    | false => exact httpGetGo_not_retry outcomes maxRetries maxRetries h
  | succ m ih =>
    intro attempt hk hall
    have hretry : should_retry (outcomes attempt) = true :=
      hall attempt (le_refl attempt) (by omega)
    have hlt : attempt < maxRetries := by omega
    rw [httpGetGo_retry_step outcomes maxRetries attempt hretry hlt]
    exact ih (attempt + 1) (by omega) (fun i h1 h2 => hall i (by omega) h2)

/-- C4 (amended): an attempt is retried exactly when it is a transport
exception, a 429, or a 5xx; a response with any other status ends the call
immediately at that attempt; and once the configured attempt count is
exhausted, the call is decided by the FINAL attempt alone — it returns that
attempt's response if there is one and otherwise re-raises that attempt's
transport exception, even when an earlier attempt had received a (retryable)
response. -/
theorem http_get_with_backoff_retry_contract (outcomes : Nat → FetchAttempt)
    (maxRetries k : Nat) (s : Int) (e : Nat) :
    (should_retry (.exc e) = true) ∧
    (∀ st : Int, should_retry (.resp st) = true ↔ (st = 429 ∨ (500 ≤ st ∧ st < 600))) ∧
    (1 ≤ k → k ≤ maxRetries →
      (∀ i, 1 ≤ i → i < k → should_retry (outcomes i) = true) →
      outcomes k = .resp s → should_retry (.resp s) = false →
      http_get_with_backoff outcomes maxRetries = (.returned s, k)) ∧
    (1 ≤ maxRetries →
      (∀ i, 1 ≤ i → i < maxRetries → should_retry (outcomes i) = true) →
      http_get_with_backoff outcomes maxRetries
        = (finishAttempt (outcomes maxRetries), maxRetries)) := by
  refine ⟨rfl, ?_, ?_, ?_⟩
  · intro st
    simp [should_retry, Bool.or_eq_true, decide_eq_true_eq, beq_iff_eq]
  · intro h1 hk hall hout hstop
    rw [http_get_with_backoff,
      httpGetGo_first_stop outcomes maxRetries (k - 1) 1 k (by omega) hk
        (fun i hi1 hi2 => hall i hi1 hi2) (by rw [hout]; exact hstop), hout]
    rfl
  · intro h1 hall
    rw [http_get_with_backoff]
    exact httpGetGo_run_out outcomes maxRetries (maxRetries - 1) 1 (by omega)
      (fun i hi1 hi2 => hall i hi1 hi2)

/-- Witness for C4's amended statement: a 404 on the first attempt is returned
immediately, and an all-retryable run of 5xx responses ends with the final
attempt's response. -/
theorem http_get_with_backoff_retry_contract_witness :
    should_retry (.resp 404) = false ∧
    http_get_with_backoff (fun _ => .resp 404) 5 = (.returned 404, 1) ∧
    http_get_with_backoff (fun _ => .resp 503) 3 = (.returned 503, 3) := by
  have h1 := (http_get_with_backoff_retry_contract (fun _ => .resp 404) 5 1 404 0).2.2.1
    (by omega) (by omega) (fun i hi1 hi2 => by omega) rfl (by decide)
  have h2 := (http_get_with_backoff_retry_contract (fun _ => .resp 503) 3 1 503 0).2.2.2
    (by omega) (fun i hi1 hi2 => by decide)
  exact ⟨by decide, h1, h2⟩

/-- Counterexample to C4 as stated: with a 500 response on attempt 1 and a
transport exception on attempt 2 (max 2 attempts), a response WAS received
during the call, yet the code re-raises the final exception instead of
returning the last received response. -/
theorem http_get_with_backoff_exhaustion_counterexample :
    respThenExc 1 = .resp 500 ∧
    http_get_with_backoff respThenExc 2 = (.raised 7, 2) ∧
    (FetchResult.raised 7 ≠ FetchResult.returned 500) := by
  refine ⟨rfl, ?_, by decide⟩
  rw [http_get_with_backoff,
    httpGetGo_retry_step respThenExc 2 1 (by decide) (by omega),
    httpGetGo_exhaust respThenExc 2 2 (by decide) (by omega)]
  rfl

theorem ingest_range_for_url_eq_filter (permanent : Nat → Bool) (start endId : Nat) :
    ingest_range_for_url permanent start endId
      = (List.range' start (endId + 1 - start)).filter (fun mid => !permanent mid) := by
  rw [ingest_range_for_url, skip_loop_eq_filter]
  simp

theorem ingest_ids_for_url_eq_filter (permanent : Nat → Bool) (ids : List Nat) :
    ingest_ids_for_url permanent ids = ids.filter (fun mid => !permanent mid) := by
  rw [ingest_ids_for_url, skip_loop_eq_filter]
  simp

/-- C9: Permanent-unavailable skip — in the range loop, every identifier whose
record the tracker marks permanent is skipped (no `ingest_endpoint` call, so
no HTTP request), every other identifier in `[start, end]` is attempted
exactly once, and attempts happen in ascending identifier order; the
explicit-id loop likewise attempts exactly the non-permanent identifiers in
the caller's order.  `records id` is the url_status row for the target's URL,
consulted through `is_permanent_404`. -/
theorem discovery_skips_permanent (records : Nat → Option UrlRecord)
    (start endId : Nat) (ids : List Nat) (hnd : ids.Nodup) :
    (∀ id, is_permanent_404 (records id) = true →
      id ∉ ingest_range_for_url (fun i => is_permanent_404 (records i)) start endId) ∧
    (∀ id, start ≤ id → id ≤ endId → is_permanent_404 (records id) = false →
      (ingest_range_for_url (fun i => is_permanent_404 (records i)) start endId).count id
        = 1) ∧
    (ingest_range_for_url (fun i => is_permanent_404 (records i)) start endId).Sorted
      (· < ·) ∧
    (∀ id, is_permanent_404 (records id) = true →
      id ∉ ingest_ids_for_url (fun i => is_permanent_404 (records i)) ids) ∧
    (∀ id, id ∈ ids → is_permanent_404 (records id) = false →
      (ingest_ids_for_url (fun i => is_permanent_404 (records i)) ids).count id = 1) := by
  refine ⟨?_, ?_, ?_, ?_, ?_⟩
  · intro id hp hmem
    rw [ingest_range_for_url_eq_filter] at hmem
    have := List.of_mem_filter hmem
    simp [hp] at this
  · intro id h1 h2 hp
    have hmem : id ∈ List.range' start (endId + 1 - start) := by
      rw [List.mem_range'_1]
      omega
    rw [ingest_range_for_url_eq_filter, List.count_filter (by simp [hp]),
      List.count_eq_one_of_mem (List.nodup_range' start (endId + 1 - start)) hmem]
  · rw [ingest_range_for_url_eq_filter]
    exact List.Pairwise.filter _ (List.pairwise_lt_range' start (endId + 1 - start))
  · intro id hp hmem
    rw [ingest_ids_for_url_eq_filter] at hmem
    have := List.of_mem_filter hmem
    simp [hp] at this
  · intro id hmem hp
    rw [ingest_ids_for_url_eq_filter, List.count_filter (by simp [hp]),
      List.count_eq_one_of_mem hnd hmem]

/-- Witness for C9: range [1,4] and id list [1,2,3] where identifier 2 is
marked permanent. -/
theorem discovery_skips_permanent_witness :
    ([1, 2, 3] : List Nat).Nodup ∧
    is_permanent_404 ((fun id => if id = 2
        then some ⟨some 2, 0, some 404, 5, some 0, none, true⟩ else none) 2) = true ∧
    (2 ∉ ingest_range_for_url (fun i => is_permanent_404 (if i = 2
        then some ⟨some 2, 0, some 404, 5, some 0, none, true⟩ else none)) 1 4) ∧
    (ingest_range_for_url (fun i => is_permanent_404 (if i = 2
        then some ⟨some 2, 0, some 404, 5, some 0, none, true⟩ else none)) 1 4).count 3 = 1 ∧
    (2 ∉ ingest_ids_for_url (fun i => is_permanent_404 (if i = 2
        then some ⟨some 2, 0, some 404, 5, some 0, none, true⟩ else none)) [1, 2, 3]) := by
  have h := discovery_skips_permanent
    (fun id => if id = 2 then some ⟨some 2, 0, some 404, 5, some 0, none, true⟩ else none)
    1 4 [1, 2, 3] (by decide)
  exact ⟨by decide, by decide, h.1 2 (by decide), h.2.1 3 (by decide) (by decide) (by decide),
    h.2.2.2.1 2 (by decide)⟩

theorem pruneTimes_count {now x : Int} (l : List Int) (h : now - x < 60) :
    (pruneTimes now l).count x = l.count x :=
  List.count_filter (by simp [h])

theorem pruneTimes_count_zero {now x : Int} (l : List Int) (h : ¬ now - x < 60) :
    (pruneTimes now l).count x = 0 := by
  rw [List.count_eq_zero]
  intro hmem
  exact h (by simpa using (List.mem_filter.mp hmem).2)

theorem pruneTimes_pruneTimes {now now2 : Int} (l : List Int) (h : now ≤ now2) :
    pruneTimes now2 (pruneTimes now l) = pruneTimes now2 l := by
  rw [pruneTimes, pruneTimes, pruneTimes, List.filter_filter]
  apply List.filter_congr
  intro x _
  by_cases h2 : now2 - x < 60
  · have h1 : now - x < 60 := by omega
    simp [h1, h2]
  · simp [h2]

theorem filter_starts_eq_times_length {limit : Nat} {s : RLState} (hinv : RLInv limit s)
    {cutoff : Int} (hclk : s.clock ≤ cutoff) :
    s.starts.countP (fun e => decide (cutoff - e < 60))
      = (pruneTimes cutoff s.times).length := by
  obtain ⟨_, _, _, hcnt, _⟩ := hinv
  rw [List.countP_eq_length_filter, pruneTimes]
  have hperm : (s.starts.filter (fun e => decide (cutoff - e < 60))).Perm
      (s.times.filter (fun e => decide (cutoff - e < 60))) := by
    rw [List.perm_iff_count]
    intro x
    by_cases hx : cutoff - x < 60
    · rw [List.count_filter (by simp [hx]), List.count_filter (by simp [hx])]
      exact (hcnt x (by omega)).symm
    · have h1 : x ∉ s.starts.filter (fun e => decide (cutoff - e < 60)) := by
        intro hmem
        exact hx (by simpa using (List.mem_filter.mp hmem).2)
      have h2 : x ∉ s.times.filter (fun e => decide (cutoff - e < 60)) := by
        intro hmem
        exact hx (by simpa using (List.mem_filter.mp hmem).2)
      rw [List.count_eq_zero.mpr h1, List.count_eq_zero.mpr h2]
  exact hperm.length_eq

theorem window_countP_le {starts : List Int} {w cutoff : Int} {bound : Nat}
    (hcut : cutoff ≤ w + 60)
    (hrecent : starts.countP (fun e => decide (cutoff - e < 60)) ≤ bound) :
    starts.countP (inWindow w) ≤ bound := by
  refine le_trans (List.countP_mono_left ?_) hrecent
  intro e hmem he
  have h1 : w < e ∧ e ≤ w + 60 := by
    simpa [inWindow] using he
  simp
  omega

theorem rlStep_inv (limit : Nat) (hlim : 1 ≤ limit) (s : RLState) (c : Int × Int)
    (hclock : s.clock ≤ c.1)
    (hsleep : limit ≤ (pruneTimes c.1 s.times).length →
      c.1 ≤ c.2 ∧ ∃ m ∈ pruneTimes c.1 s.times,
        (∀ t ∈ pruneTimes c.1 s.times, m ≤ t) ∧ m + 61 ≤ c.2)
    (hinv : RLInv limit s) : RLInv limit (rlStep limit s c) := by
  obtain ⟨hlen, htc, hec, hcnt, hwin⟩ := hinv
  have hplen : (pruneTimes c.1 s.times).length ≤ limit :=
    le_trans (List.length_filter_le _ _) hlen
  by_cases hfull : limit ≤ (pruneTimes c.1 s.times).length
  · obtain ⟨h12, m, hm, hmin, hm61⟩ := hsleep hfull
    have hstep : rlStep limit s c
        = { times := pruneTimes c.2 (pruneTimes c.1 s.times) ++ [c.2],
            starts := s.starts ++ [c.2], clock := c.2 } := by
      simp [rlStep, check_rate_limit, hfull]
    have hshort : (pruneTimes c.2 (pruneTimes c.1 s.times)).length
        < (pruneTimes c.1 s.times).length := by
      rw [pruneTimes]
      exact List.length_filter_lt_length_iff_exists.mpr
        ⟨m, hm, by simp; omega⟩
    have hprune2 : pruneTimes c.2 (pruneTimes c.1 s.times) = pruneTimes c.2 s.times :=
      pruneTimes_pruneTimes s.times h12
    rw [hstep]
    simp only [RLInv]
    refine ⟨?_, ?_, ?_, ?_, ?_⟩
    · simp only [List.length_append, List.length_cons, List.length_nil]
      omega
    · intro t hmem
      rcases List.mem_append.mp hmem with h | h
      · have h1 := (List.mem_filter.mp h).1
        have h2 := (List.mem_filter.mp h1).1
        exact le_trans (htc t h2) (by omega)
      · simp at h
        omega
    · intro e hmem
      rcases List.mem_append.mp hmem with h | h
      · exact le_trans (hec e h) (by omega)
      · simp at h
        omega
    · intro x hx
      rw [List.count_append, List.count_append, hprune2,
        pruneTimes_count s.times hx, hcnt x (by omega)]
    · intro w
      rw [List.countP_append]
      by_cases hw : inWindow w c.2 = true
      · have hcut : c.2 ≤ w + 60 := by
          have := (by simpa [inWindow] using hw : w < c.2 ∧ c.2 ≤ w + 60)
          omega
        have hrec : s.starts.countP (fun e => decide (c.2 - e < 60))
            = (pruneTimes c.2 s.times).length :=
          filter_starts_eq_times_length ⟨hlen, htc, hec, hcnt, hwin⟩ (by omega)
        have hb : s.starts.countP (inWindow w) ≤ limit - 1 := by
          apply window_countP_le hcut
          rw [hrec, ← hprune2]
          omega
        simp [hw]
        omega
      · simp [hw]
        exact hwin w
  · have hstep : rlStep limit s c
        = { times := pruneTimes c.1 s.times ++ [c.1],
            starts := s.starts ++ [c.1], clock := c.1 } := by
      simp [rlStep, check_rate_limit, hfull]
    rw [hstep]
    simp only [RLInv]
    refine ⟨?_, ?_, ?_, ?_, ?_⟩
    · simp only [List.length_append, List.length_cons, List.length_nil]
      omega
    · intro t hmem
      rcases List.mem_append.mp hmem with h | h
      · exact le_trans (htc t (List.mem_filter.mp h).1) (by omega)
      · simp at h
        omega
    · intro e hmem
      rcases List.mem_append.mp hmem with h | h
      · exact le_trans (hec e h) (by omega)
      · simp at h
        omega
    · intro x hx
      rw [List.count_append, List.count_append,
        pruneTimes_count s.times hx, hcnt x (by omega)]
    · intro w
      rw [List.countP_append]
      by_cases hw : inWindow w c.1 = true
      · have hcut : c.1 ≤ w + 60 := by
          have := (by simpa [inWindow] using hw : w < c.1 ∧ c.1 ≤ w + 60)
          omega
        have hrec : s.starts.countP (fun e => decide (c.1 - e < 60))
            = (pruneTimes c.1 s.times).length :=
          filter_starts_eq_times_length ⟨hlen, htc, hec, hcnt, hwin⟩ hclock
        have hb : s.starts.countP (inWindow w) ≤ limit - 1 := by
          apply window_countP_le hcut
          rw [hrec]
          omega
        simp [hw]
        omega
      · simp [hw]
        exact hwin w

theorem rlRun_inv (limit : Nat) (hlim : 1 ≤ limit) :
    ∀ (calls : List (Int × Int)) (s : RLState),
      RLInv limit s → ValidCalls limit s calls → RLInv limit (rlRun limit s calls) := by
  intro calls
  induction calls with
  | nil => intro s hinv _; exact hinv
  | cons c rest ih =>
    intro s hinv hvalid
    obtain ⟨hclock, hsleep, hrest⟩ := hvalid
    exact ih (rlStep limit s c) (rlStep_inv limit hlim s c hclock hsleep hinv) hrest

/-- C7 (amended): the threaded limiter (`check_rate_limit`, which prunes
timestamps older than 60 seconds before every admission check and blocks while
the window is full) admits at most `limit` request starts in any rolling
60-second window `(w, w + 60]`, over every wall-clock-valid serialized call
sequence.  The asyncio variant does NOT have this property (see the
counterexample for the claim as stated). -/
theorem check_rate_limit_window_bound (limit : Nat) (hlim : 1 ≤ limit) (c0 : Int)
    (calls : List (Int × Int)) (hvalid : ValidCalls limit ⟨[], [], c0⟩ calls) (w : Int) :
    ((rlRun limit ⟨[], [], c0⟩ calls).starts.countP (inWindow w)) ≤ limit := by
  have hinit : RLInv limit ⟨[], [], c0⟩ := by
    refine ⟨by simp, by simp, by simp, by simp, by simp⟩
  exact (rlRun_inv limit hlim calls ⟨[], [], c0⟩ hinit hvalid).2.2.2.2 w

/-- Witness for C7's amended statement: a limit of 1, one admission at time 0
and a second admission that finds the window full at time 10 and sleeps until
time 70. -/
theorem check_rate_limit_window_bound_witness :
    (1 : Nat) ≤ 1 ∧
    ValidCalls 1 ⟨[], [], 0⟩ [((0 : Int), (0 : Int)), (10, 70)] ∧
    ((rlRun 1 ⟨[], [], 0⟩ [((0 : Int), (0 : Int)), (10, 70)]).starts.countP
      (inWindow (-1))) ≤ 1 := by
  have hvalid : ValidCalls 1 ⟨[], [], 0⟩ [((0 : Int), (0 : Int)), (10, 70)] := by
    refine ⟨by norm_num, ?_, ?_, ?_, trivial⟩
    · intro h
      simp [pruneTimes] at h
    · simp [rlStep, check_rate_limit, pruneTimes]
    · intro h
      refine ⟨by norm_num, 0, ?_⟩
      simp [rlStep, check_rate_limit, pruneTimes]
  exact ⟨le_refl 1, hvalid, check_rate_limit_window_bound 1 (le_refl 1) 0 _ hvalid (-1)⟩

/-- Counterexample to C7 as stated: the asyncio limiter of
concurrent_team_ingest.py releases its rate permit when a request completes
and prunes timestamps only in the 60-second reset task, so a valid schedule
within the first minute fits 24 request starts into one rolling 60-second
window against a configured limit of 2. -/
theorem async_rate_limiter_window_counterexample :
    asyncOk 2 0 0 asyncBurstTrace = true ∧
    ((asyncRun 2 asyncBurstTrace).2.countP (inWindow (-1))) = 24 ∧
    ¬ ((asyncRun 2 asyncBurstTrace).2.countP (inWindow (-1)) ≤ 2) := by
  refine ⟨by decide, by decide, by decide⟩
